import Mathlib

/-!
# LandText — a shallow embedding of src/landtext.py

This file embeds the parts of the LandText editor (a single-file tkinter
application) that its specification makes claims about:

* the settings store (load_settings / save_settings) and the THEMES table;
* the Find-All scan (do_find inside open_find_dialog);
* the dirty-flag event bindings (_setup_bindings / mark_modified);
* document I/O (open_file / save_file / save_as_file) over a model of the
  tk.Text widget;
* the unsaved-changes dialog (show_unsaved_dialog) with Python's local-name
  rebinding semantics made explicit;
* the window registry and close handling (on_close) plus the theme/font
  broadcasts.

Python dicts that may lack keys are modelled as association lists; tkinter
behaviour that the code relies on (the implicit trailing newline of tk.Text,
the semantics of Text.search with nocase=1) is modelled explicitly and noted
at the definition concerned.
-/

/-- A theme color table, as a Python dict from color-field name to color
string (THEMES[name] in the source).  An association list models a JSON
object that may lack keys. -/
abbrev ThemeDict := List (String × String)

/-- The seven color fields of a theme profile, as keyed in THEMES. -/
def themeKeys : List String :=
  ["bg", "fg", "insertbackground", "selectbackground", "selectforeground",
   "status_bg", "status_fg"]

/-- A theme is complete when every one of the seven fields is present. -/
def isCompleteTheme (t : ThemeDict) : Bool :=
  themeKeys.all (fun k => (t.lookup k).isSome)

/-- THEMES["Light"] as written in the source. -/
def THEMES_Light : ThemeDict :=
  [("bg", "white"), ("fg", "black"), ("insertbackground", "black"),
   ("selectbackground", "lightblue"), ("selectforeground", "black"),
   ("status_bg", "lightgray"), ("status_fg", "black")]

/-- THEMES["Dark"] as written in the source. -/
def THEMES_Dark : ThemeDict :=
  [("bg", "#1e1e1e"), ("fg", "#d4d4d4"), ("insertbackground", "white"),
   ("selectbackground", "#264f78"), ("selectforeground", "white"),
   ("status_bg", "#2d2d2d"), ("status_fg", "white")]

/-- The initial THEMES["Custom"] as written in the source (same values as
Light). -/
def THEMES_Custom_default : ThemeDict :=
  [("bg", "white"), ("fg", "black"), ("insertbackground", "black"),
   ("selectbackground", "lightblue"), ("selectforeground", "black"),
   ("status_bg", "lightgray"), ("status_fg", "black")]

/-- The parsed settings JSON object.  Each field is optional because the
Python reads it with settings.get(..., default) or an explicit
"custom_theme" in settings membership test: a key can be absent. -/
structure SettingsFile where
  current_theme : Option String
  custom_theme : Option ThemeDict
  font_size : Option Nat
deriving Repr, DecidableEq

/-- What load_settings finds on disk: no file, a file json.load rejects, or
a parsed object. -/
inductive SettingsSource where
  | missing
  | corrupt
  | parsed (s : SettingsFile)
deriving Repr, DecidableEq

/-- The three global values load_settings leaves behind: its return value
(bound to current_theme), THEMES["Custom"], and current_font_size. -/
structure LoadResult where
  current_theme : String
  custom : ThemeDict
  font_size : Nat
deriving Repr, DecidableEq

/-- load_settings from the source.  If the file is missing the function
returns "Light" and touches nothing; on a json.load failure the bare
except returns "Light" with the globals unchanged.  On a parsed object:
THEMES["Custom"] is assigned settings["custom_theme"] wholesale when the
key is present (no merging with the previous table), current_font_size
becomes settings.get("font_size", 12), and the returned theme name is
settings.get("current_theme", "Light"). -/
def load_settings (src : SettingsSource) (oldCustom : ThemeDict)
    (oldFontSize : Nat) : LoadResult :=
  match src with
  | .missing => ⟨"Light", oldCustom, oldFontSize⟩
  | .corrupt => ⟨"Light", oldCustom, oldFontSize⟩
  | .parsed s =>
      { current_theme := s.current_theme.getD "Light"
        custom := match s.custom_theme with
                  | some c => c
                  | none => oldCustom
        font_size := s.font_size.getD 12 }

/-- save_settings from the source: it serializes the dict
{"current_theme": theme_name, "custom_theme": THEMES["Custom"],
"font_size": current_font_size}.  json.dump followed by json.load
round-trips strings, string tables and integers exactly, so the written
file parses back to a SettingsFile with all three keys present. -/
def save_settings (theme_name : String) (custom : ThemeDict)
    (font_size : Nat) : SettingsFile :=
  { current_theme := some theme_name
    custom_theme := some custom
    font_size := some font_size }

/-! ## Find-All (do_find inside open_find_dialog) -/

/-- Whether the query q matches the buffer at character position i,
case-insensitively: tk's Text.search with nocase=1 compares the pattern
to the text with case folded.  A position too close to the end (fewer
than q.length characters remaining) does not match. -/
def matchesAt (buf q : List Char) (i : Nat) : Bool :=
  ((buf.drop i).take q.length).map Char.toLower == q.map Char.toLower

/-- The first match position at or after i, as Text.search(term, idx,
nocase=1, stopindex=END) returns it: the smallest j ≥ i where the query
matches. -/
def firstMatchAtOrAfter (buf q : List Char) (i : Nat) : Option Nat :=
  (List.range buf.length).find? (fun j => decide (i ≤ j) && matchesAt buf q j)

/-- The while-loop of do_find: search from idx; on a hit at idx, tag
[idx, idx+len(term)) and resume at idx+len(term) (lastidx); stop when
search returns no index.  Fuel bounds the iteration count; the callers
pass enough fuel for the scan to run to completion. -/
def findFrom (buf q : List Char) : Nat → Nat → List (Nat × Nat)
  | _, 0 => []
  | i, fuel + 1 =>
      match firstMatchAtOrAfter buf q i with
      | none => []
      | some j => (j, j + q.length) :: findFrom buf q (j + q.length) fuel

/-- do_find from the source: it first removes every "found" tag from the
whole buffer (the previous highlight set prev is discarded wholesale),
then, only if the search term is non-empty, scans and tags each match.
The result is the highlight-span set after the handler runs, which is
also the set of reported (highlighted) matches. -/
def do_find (prev : List (Nat × Nat)) (buf q : String) : List (Nat × Nat) :=
  let cleared : List (Nat × Nat) := []
  if q.isEmpty then cleared
  else cleared ++ findFrom buf.toList q.toList 0 (buf.length + 1)

/-! ## Dirty-flag event model (claim C5)

_setup_bindings binds mark_modified to the <Key> and <<Paste>> events of
the text widget.  tk delivers a <Key> event for every key press in the
widget — arrow keys, Home/End, bare modifier keys — whether or not the
press changes the buffer; the model records with each key event whether
it changed the buffer.  _do_new_file, the open_file success path, and the
save_file / save_as_file success paths assign modified = False; the
failure paths leave it untouched. -/

/-- An input event affecting the modified flag of one window. -/
inductive Ev where
  /-- A key press in the text widget; changes records whether the press
  actually changed the buffer content. -/
  | key (changes : Bool)
  /-- A paste into the text widget. -/
  | paste
  /-- New completed: _do_new_file ran. -/
  | newDone
  /-- open_file read the file successfully. -/
  | openOk
  /-- save_file or save_as_file wrote the file successfully. -/
  | saveOk
  /-- save_file or save_as_file failed; the handler only shows an error. -/
  | saveFail
deriving Repr, DecidableEq

/-- One step of the modified flag as the source updates it: mark_modified
(bound to <Key> and <<Paste>>) sets it; the successful New/Open/Save
paths clear it; a failed save leaves it. -/
def stepModified (m : Bool) : Ev → Bool
  | .key _ => true
  | .paste => true
  | .newDone => false
  | .openOk => false
  | .saveOk => false
  | .saveFail => m

/-- The modified flag after a window (created with modified = False)
processes a sequence of events. -/
def runModified (evs : List Ev) : Bool :=
  evs.foldl stepModified false

/-- The spec's dirty predicate, one step: dirty iff a content-changing
event (a buffer-changing keystroke or a paste) occurred since the last
successful New/Open/Save. -/
def specStepModified (m : Bool) : Ev → Bool
  | .key c => m || c
  | .paste => true
  | .newDone => false
  | .openOk => false
  | .saveOk => false
  | .saveFail => m

/-- The spec's dirty predicate over a whole event sequence. -/
def specDirty (evs : List Ev) : Bool :=
  evs.foldl specStepModified false

/-- An event that resets the flag: a successful New, Open or Save. -/
def resets : Ev → Bool
  | .newDone => true
  | .openOk => true
  | .saveOk => true
  | _ => false

/-- An event mark_modified is bound to: any key press or a paste. -/
def touches : Ev → Bool
  | .key _ => true
  | .paste => true
  | _ => false

/-! ## Document I/O (claims C3, C4)

The buffer is a tk.Text widget.  tk.Text keeps an automatic final newline
after the user-visible content that can never be deleted, and
text_area.get("1.0", tk.END) — the exact call save_file and save_as_file
make — returns the user-visible content followed by that automatic
newline.  The model keeps the user-visible content in EditorSt.content
and makes the END read explicit in text_get_end. -/

/-- The in-memory state of one editor window that file operations touch:
the user-visible buffer content and the current_file dict
{"path": ..., "modified": ...}. -/
structure EditorSt where
  content : String
  path : Option String
  modified : Bool
deriving Repr, DecidableEq

/-- text_area.get("1.0", tk.END): the buffer's user-visible characters
followed by the tk.Text automatic trailing newline. -/
def text_get_end (s : EditorSt) : String :=
  s.content ++ "\n"

/-- The outcome of a file-system read or write, as the try/except blocks
see it: success with the data, or an exception message e. -/
inductive FsResult (α : Type) where
  | ok (a : α)
  | err (msg : String)
deriving Repr, DecidableEq

/-- open_file from the source, after the chooser returned filename: the
try block reads the whole file as UTF-8, then replaces the buffer
(delete 1.0..END; insert 1.0 content) and sets current_file to
(filename, False); the except arm only shows a messagebox, so nothing
was mutated (the read is first in the block).  Returns the new state and
the reported error message, if any. -/
def open_file (s : EditorSt) (filename : String)
    (readResult : FsResult String) : EditorSt × Option String :=
  match readResult with
  | .ok content => (⟨content, some filename, false⟩, none)
  | .err e => (s, some e)

/-- save_file from the source, in the case current_file["path"] is set:
the try block writes text_area.get("1.0", END) to the path and clears
modified; the except arm only shows a messagebox.  writeResult is the
outcome of the write of text_get_end s.  Returns the new state, the
string written to disk (if the write succeeded), and the reported
error, if any. -/
def save_file_with_path (s : EditorSt)
    (writeResult : FsResult Unit) : EditorSt × Option String × Option String :=
  match writeResult with
  | .ok _ => ({ s with modified := false }, some (text_get_end s), none)
  | .err e => (s, none, some e)

/-- save_as_file from the source, after the chooser returned filename:
the try block writes text_area.get("1.0", END) there and sets
current_file to (filename, False); the except arm only shows a
messagebox. -/
def save_as_file (s : EditorSt) (filename : String)
    (writeResult : FsResult Unit) : EditorSt × Option String × Option String :=
  match writeResult with
  | .ok _ => (⟨s.content, some filename, false⟩, some (text_get_end s), none)
  | .err e => (s, none, some e)

/-- Save then Open on the same path with a working file system: save_file
writes text_get_end s to the path, and open_file then reads back exactly
those bytes (UTF-8 round-trips through the file).  Returns the buffer
content after the Open. -/
def save_then_open_content (s : EditorSt) : String :=
  match save_file_with_path s (.ok ()) with
  | (_, some written, _) => (open_file s "p" (.ok written)).1.content
  | (_, none, _) => s.content

/-! ## The unsaved-changes dialog (claim C1)

show_unsaved_dialog(self, on_discard=None) builds the dialog and defines
two handlers:

    def on_save():
        dialog.destroy()
        self.save_file()
        if on_discard:
            on_discard()

    def on_discard():
        dialog.destroy()
        if on_discard:
            on_discard()

Both def statements execute before either button can be clicked, and in
Python a def is an assignment to its name in the enclosing function's
scope.  The inner def on_discard therefore rebinds the one local cell
named on_discard — the same cell that held the callback parameter (the
originally requested action) — to the inner handler.  By the time a
button is clicked, every lookup of on_discard resolves to the inner
handler, which is always truthy and calls itself; the callback passed by
new_file is unreachable.  The model makes the cell lookup explicit and
uses fuel for Python's recursion limit: fuel 0 is the point where the
interpreter raises RecursionError and the handler aborts. -/

/-- The observable effects of one run of a dialog button handler. -/
structure DialogRun where
  /-- dialog.destroy() has executed (tk ignores repeat destroys). -/
  dialogDestroyed : Bool
  /-- self.save_file() has executed. -/
  saveInvoked : Bool
  /-- The originally requested action — the callback new_file passed as
  the on_discard parameter — has executed. -/
  proceedInvoked : Bool
deriving Repr, DecidableEq

/-- The inner on_discard handler: destroy the dialog, look up the name
on_discard — which resolves to this very handler, never to the callback
parameter — and call it.  Returns the state reached plus whether the
handler completed normally; at fuel 0 the recursion limit is hit
(RecursionError) and false is returned. -/
def onDiscardHandler : Nat → DialogRun → DialogRun × Bool
  | 0, st => (st, false)
  | fuel + 1, st => onDiscardHandler fuel { st with dialogDestroyed := true }

/-- The on_save handler: destroy the dialog, run save_file, then look up
the name on_discard — which resolves to the inner handler, not the
callback parameter — and call it. -/
def onSaveHandler (fuel : Nat) (st : DialogRun) : DialogRun × Bool :=
  onDiscardHandler fuel { st with dialogDestroyed := true, saveInvoked := true }

/-! ## Destructive actions and the dirty check (claim C2) -/

/-- The three destructive actions the spec lists: File→New, File→Open and
a window-close request (WM_DELETE_WINDOW). -/
inductive DestructiveAction where
  | newFile
  | openFile
  | closeRequest
deriving Repr, DecidableEq

/-- Whether the source runs the unsaved-changes flow before the action,
given the window's modified flag: new_file calls show_unsaved_dialog when
current_file["modified"] is set; open_file goes straight to the chooser
and replaces the buffer with no modified check; on_close removes the
window and tears it down with no modified check. -/
def runsUnsavedFlow : DestructiveAction → Bool → Bool
  | .newFile, modified => modified
  | .openFile, _ => false
  | .closeRequest, _ => false

/-! ## Window registry, close handling and broadcasts (claims C9, C10)

all_editors is the process-wide window registry: Editor.__init__ appends
self, on_close removes self.  on_close then, for the root window,
withdraws (hides) it — the Tk object survives — and calls quit only when
all_editors is empty; for a non-root window it destroys the Toplevel and
calls quit when all_editors is empty.  The theme and font broadcasts
(apply_theme inside open_theme_settings, apply_font_size inside
open_font_size_settings) loop over all_editors only. -/

/-- One Editor object: its identity, its is_root flag, and the theme name
and font size most recently applied to its widgets. -/
structure Ed where
  id : Nat
  isRoot : Bool
  theme : String
  fontSize : Nat
deriving Repr, DecidableEq

/-- Process-wide state: all_editors (the registry), the ids of withdrawn
and destroyed windows, the root Editor object surviving hidden after its
close (if any), and whether quit was called. -/
structure App where
  editors : List Ed
  withdrawnIds : List Nat
  destroyedIds : List Nat
  hiddenRoot : Option Ed
  terminated : Bool
deriving Repr, DecidableEq

/-- on_close from the source: all_editors.remove(self); then for the root
window self.window.withdraw() and quit if the registry is empty, for a
non-root window self.window.destroy() and quit if the registry is empty. -/
def on_close (w : Ed) (s : App) : App :=
  let editors := s.editors.erase w
  if w.isRoot then
    { s with editors := editors
             withdrawnIds := w.id :: s.withdrawnIds
             hiddenRoot := some w
             terminated := s.terminated || editors.isEmpty }
  else
    { s with editors := editors
             destroyedIds := w.id :: s.destroyedIds
             terminated := s.terminated || editors.isEmpty }

/-- Closing a sequence of windows in order. -/
def closeSeq (s : App) (order : List Ed) : App :=
  order.foldl (fun st w => on_close w st) s

/-- The application state at startup with the given open windows. -/
def initApp (ws : List Ed) : App :=
  ⟨ws, [], [], none, false⟩

/-- apply_theme inside open_theme_settings: for editor in all_editors,
editor.apply_theme(name).  Only registry members are restyled. -/
def broadcast_theme (name : String) (s : App) : App :=
  { s with editors := s.editors.map (fun e => { e with theme := name }) }

/-- apply_font_size inside open_font_size_settings: for editor in
all_editors, editor.apply_font_size(size). -/
def broadcast_font_size (size : Nat) (s : App) : App :=
  { s with editors := s.editors.map (fun e => { e with fontSize := size }) }

/-- The invariants the close sequence maintains: the registry is a
permutation of the windows still to be closed, window identities are
distinct, quit has been called exactly when the registry is empty, and no
registered window has been destroyed. -/
def GoodApp (s : App) (remaining : List Ed) : Prop :=
  s.editors.Perm remaining
  ∧ (s.editors.map Ed.id).Nodup
  ∧ (s.terminated = true ↔ s.editors = [])
  ∧ (∀ e ∈ s.editors, e.id ∉ s.destroyedIds)

/-- A concrete root window, for instantiating the close theorems. -/
def wRoot : Ed := ⟨0, true, "Light", 12⟩

/-- A concrete sibling (non-root) window. -/
def wSib : Ed := ⟨1, false, "Light", 12⟩

/-! ## Theorems about settings (claims C6, C7) -/

/-- C7: saving settings with theme name T, custom table C and font size S,
then loading, yields exactly T, C and S (whatever the globals held
before the load). -/
theorem settings_round_trip (T : String) (C : ThemeDict) (S : Nat)
    (oldCustom : ThemeDict) (oldFontSize : Nat) :
    load_settings (SettingsSource.parsed (save_settings T C S)) oldCustom
      oldFontSize = ⟨T, C, S⟩ := rfl

/-- C6 counterexample: loading a settings file whose custom_theme object
has only a "bg" field leaves THEMES["Custom"] with exactly that one field;
the six missing fields are not default-filled, so the Custom theme name no
longer resolves to a complete 7-field record. -/
theorem custom_theme_not_default_filled :
    isCompleteTheme
      ((load_settings
          (SettingsSource.parsed ⟨some "Custom", some [("bg", "red")], some 12⟩)
          THEMES_Custom_default 12).custom) = false := by decide

/-- C6 amended: the three built-in theme tables are complete 7-field
records at startup, but load_settings replaces THEMES["Custom"] wholesale
with the file's custom_theme object whenever that key is present, so a
partial object makes Custom partial (no default-fill of missing fields). -/
theorem themes_complete_until_wholesale_replacement :
    (isCompleteTheme THEMES_Light = true ∧ isCompleteTheme THEMES_Dark = true ∧
     isCompleteTheme THEMES_Custom_default = true)
    ∧ (∀ (t : Option String) (c : ThemeDict) (f : Option Nat)
         (oldCustom : ThemeDict) (oldFontSize : Nat),
         (load_settings (SettingsSource.parsed ⟨t, some c, f⟩) oldCustom
            oldFontSize).custom = c) :=
  ⟨by decide, fun _ _ _ _ _ => rfl⟩

/-! ## Theorems about Find-All (claim C8) -/

theorem findFrom_mem_lower_bound (buf q : List Char) :
    ∀ fuel i m, m ∈ findFrom buf q i fuel → i ≤ m.1 := by
  intro fuel
  induction fuel with
  | zero => intro i m h; simp [findFrom] at h
  | succ n ih =>
      intro i m h
      simp only [findFrom] at h
      cases hfind : firstMatchAtOrAfter buf q i with
      | none => rw [hfind] at h; simp at h
      | some j =>
          rw [hfind] at h
          have hj : i ≤ j := by
            have := List.find?_some hfind
            simp only [Bool.and_eq_true, decide_eq_true_eq] at this
            exact this.1
          rcases List.mem_cons.mp h with h1 | h2
          · subst h1; exact hj
          · have := ih (j + q.length) m h2
            omega

theorem findFrom_span_length (buf q : List Char) :
    ∀ fuel i m, m ∈ findFrom buf q i fuel → m.2 = m.1 + q.length := by
  intro fuel
  induction fuel with
  | zero => intro i m h; simp [findFrom] at h
  | succ n ih =>
      intro i m h
      simp only [findFrom] at h
      cases hfind : firstMatchAtOrAfter buf q i with
      | none => rw [hfind] at h; simp at h
      | some j =>
          rw [hfind] at h
          rcases List.mem_cons.mp h with h1 | h2
          · subst h1; rfl
          · exact ih (j + q.length) m h2

theorem findFrom_chain_no_overlap (buf q : List Char) :
    ∀ fuel i, (findFrom buf q i fuel).Chain' (fun a b => a.2 ≤ b.1) := by
  intro fuel
  induction fuel with
  | zero => intro i; simp [findFrom]
  | succ n ih =>
      intro i
      simp only [findFrom]
      cases hfind : firstMatchAtOrAfter buf q i with
      | none => simp
      | some j =>
          apply List.Chain'.cons'
          · exact ih (j + q.length)
          · intro b hb
            have hb' : b ∈ findFrom buf q (j + q.length) n :=
              List.mem_of_mem_head? hb
            exact findFrom_mem_lower_bound buf q n (j + q.length) b hb'

theorem find?_le_of_pairwise (pred : Nat → Bool) :
    ∀ l : List Nat, l.Pairwise (· ≤ ·) → ∀ j, l.find? pred = some j →
      ∀ p ∈ l, pred p = true → j ≤ p := by
  intro l
  induction l with
  | nil => intro _ j hj; simp at hj
  | cons a t ih =>
      intro hpw j hj p hp hpred
      rcases List.pairwise_cons.mp hpw with ⟨hat, hpt⟩
      by_cases ha : pred a = true
      · rw [List.find?_cons_of_pos _ ha] at hj
        have hja : j = a := by injection hj with h; exact h.symm
        subst hja
        rcases List.mem_cons.mp hp with h | h
        · omega
        · exact hat p h
      · rw [List.find?_cons_of_neg _ (by simpa using ha)] at hj
        rcases List.mem_cons.mp hp with h | h
        · subst h; exact absurd hpred ha
        · exact ih hpt j hj p h hpred

theorem matchesAt_lt_length (buf q : List Char) (p : Nat) (hq : q ≠ [])
    (hm : matchesAt buf q p = true) : p < buf.length := by
  by_contra hge
  have hdrop : buf.drop p = [] :=
    List.drop_eq_nil_of_le (Nat.le_of_not_lt hge)
  unfold matchesAt at hm
  rw [hdrop] at hm
  simp at hm
  exact hq hm

theorem findFrom_sound (buf q : List Char) :
    ∀ fuel i m, m ∈ findFrom buf q i fuel → matchesAt buf q m.1 = true := by
  intro fuel
  induction fuel with
  | zero => intro i m h; simp [findFrom] at h
  | succ n ih =>
      intro i m h
      simp only [findFrom] at h
      cases hfind : firstMatchAtOrAfter buf q i with
      | none => rw [hfind] at h; simp at h
      | some j =>
          rw [hfind] at h
          rcases List.mem_cons.mp h with h1 | h2
          · subst h1
            have := List.find?_some hfind
            simp only [Bool.and_eq_true, decide_eq_true_eq] at this
            exact this.2
          · exact ih (j + q.length) m h2

theorem findFrom_coverage (buf q : List Char) (hq : q ≠ []) :
    ∀ fuel i p, i ≤ p → matchesAt buf q p = true → p + 1 ≤ i + fuel →
      ∃ m ∈ findFrom buf q i fuel, m.1 ≤ p ∧ p < m.2 := by
  intro fuel
  induction fuel with
  | zero => intro i p hip _ hfuel; omega
  | succ n ih =>
      intro i p hip hp hfuel
      have hplen : p < buf.length := matchesAt_lt_length buf q p hq hp
      have hmem : p ∈ List.range buf.length := List.mem_range.mpr hplen
      have hpred : (decide (i ≤ p) && matchesAt buf q p) = true := by
        simp [hip, hp]
      have hsome : (firstMatchAtOrAfter buf q i).isSome := by
        unfold firstMatchAtOrAfter
        rw [List.find?_isSome]
        exact ⟨p, hmem, hpred⟩
      obtain ⟨j, hj⟩ := Option.isSome_iff_exists.mp hsome
      have hjp : j ≤ p :=
        find?_le_of_pairwise _ (List.range buf.length)
          ((List.pairwise_lt_range buf.length).imp Nat.le_of_lt) j hj p hmem hpred
      have hjq := List.find?_some hj
      simp only [Bool.and_eq_true, decide_eq_true_eq] at hjq
      simp only [findFrom, hj]
      by_cases hcov : p < j + q.length
      · exact ⟨(j, j + q.length), List.mem_cons_self _ _, hjp, hcov⟩
      · have hlen : q.length ≥ 1 := by
          cases q with
          | nil => exact absurd rfl hq
          | cons _ _ => simp
        obtain ⟨m, hm, hm1, hm2⟩ :=
          ih (j + q.length) p (Nat.le_of_not_lt hcov) hp (by omega)
        exact ⟨m, List.mem_cons_of_mem _ hm, hm1, hm2⟩

/-- C8: an empty query clears all existing highlights and reports zero
matches; every highlighted span is exactly the query's character length;
find_all("ab") on buffer "abab" yields exactly the two spans [0,2) and
[2,4); consecutive matches never overlap because scanning resumes at the
end of the previous match; every highlighted span starts at a real
case-insensitive occurrence of the query; and every position where the
query occurs is covered by some highlighted span (all matches are
highlighted, up to the non-overlap rule). -/
theorem find_all_behaviour :
    (∀ (prev : List (Nat × Nat)) (buf : String), do_find prev buf "" = [])
    ∧ do_find [] "abab" "ab" = [(0, 2), (2, 4)]
    ∧ (∀ (prev : List (Nat × Nat)) (buf q : String),
         ∀ m ∈ do_find prev buf q, m.2 = m.1 + q.toList.length)
    ∧ (∀ (prev : List (Nat × Nat)) (buf q : String),
         (do_find prev buf q).Chain' (fun a b => a.2 ≤ b.1))
    ∧ (∀ (prev : List (Nat × Nat)) (buf q : String),
         ∀ m ∈ do_find prev buf q, matchesAt buf.toList q.toList m.1 = true)
    ∧ (∀ (prev : List (Nat × Nat)) (buf q : String) (p : Nat),
         q.toList ≠ [] → matchesAt buf.toList q.toList p = true →
         ∃ m ∈ do_find prev buf q, m.1 ≤ p ∧ p < m.2) := by
  refine ⟨fun prev buf => rfl, by decide, ?_, ?_, ?_, ?_⟩
  · intro prev buf q m hm
    simp only [do_find] at hm
    by_cases hq : q.isEmpty
    · simp [hq] at hm
    · simp only [hq, if_neg, List.nil_append, ite_false] at hm
      exact findFrom_span_length buf.toList q.toList _ 0 m hm
  · intro prev buf q
    simp only [do_find]
    by_cases hq : q.isEmpty
    · simp [hq]
    · simp only [hq, ite_false, List.nil_append]
      exact findFrom_chain_no_overlap buf.toList q.toList _ 0
  · intro prev buf q m hm
    simp only [do_find] at hm
    by_cases hq : q.isEmpty
    · simp [hq] at hm
    · simp only [hq, ite_false, List.nil_append] at hm
      exact findFrom_sound buf.toList q.toList _ 0 m hm
  · intro prev buf q p hq hp
    have hqf : q.isEmpty = false := by
      cases hqe : q.isEmpty
      · rfl
      · refine absurd ((String.isEmpty_iff q).mp hqe) ?_
        intro h
        apply hq
        rw [h]
        rfl
    simp only [do_find, hqf, Bool.false_eq_true, ite_false, List.nil_append]
    have hplen : p < buf.toList.length := matchesAt_lt_length _ _ p hq hp
    have hlen : buf.toList.length = buf.length := rfl
    exact findFrom_coverage buf.toList q.toList hq (buf.length + 1) 0 p
      (Nat.zero_le p) hp (by omega)

/-- C8 witness: on buffer "abab" with query "ab", position 2 is a real
case-insensitive occurrence of the query and is covered by the reported
span [2, 4). -/
theorem find_all_behaviour_witness :
    ("ab".toList ≠ [] ∧ matchesAt "abab".toList "ab".toList 2 = true)
    ∧ ∃ m ∈ do_find [] "abab" "ab", m.1 ≤ 2 ∧ 2 < m.2 :=
  ⟨⟨by decide, by decide⟩,
   find_all_behaviour.2.2.2.2.2 [] "abab" "ab" 2 (by decide) (by decide)⟩

/-- C5 counterexample: a single arrow-key press (a <Key> event that does
not change the buffer) in a fresh window makes the code's modified flag
true, while the claim's dirty predicate (content-changing events only)
says it must be false. -/
theorem dirty_flag_differs_on_non_editing_key :
    runModified [Ev.key false] = true ∧ specDirty [Ev.key false] = false := by
  decide

theorem foldl_stepModified_append (l : List Ev) (e : Ev) (m : Bool) :
    List.foldl stepModified m (l ++ [e]) =
      stepModified (List.foldl stepModified m l) e := by
  simp [List.foldl_append]

theorem ev_get_append_left (l r : List Ev) (i : Fin (l ++ r).length)
    (h : (i : Nat) < l.length) : (l ++ r).get i = l.get ⟨i, h⟩ := by
  simp [List.get_eq_getElem, List.getElem_append_left h]

theorem ev_get_append_last (l : List Ev) (e : Ev) (i : Fin (l ++ [e]).length)
    (h : (i : Nat) = l.length) : (l ++ [e]).get i = e := by
  simp only [List.get_eq_getElem]
  rw [List.getElem_append_right (by omega)]
  simp [h]

/-- C5 amended: the modified flag is true iff at least one key-press
event (of any kind, buffer-changing or not) or paste occurred since the
last successful New, Open or Save — stated as: some event in the
sequence is a mark_modified trigger with no reset event after it. -/
theorem dirty_flag_iff_touch_since_reset (evs : List Ev) :
    runModified evs = true ↔
      ∃ i : Fin evs.length, touches (evs.get i) = true ∧
        ∀ j : Fin evs.length, i < j → resets (evs.get j) = false := by
  induction evs using List.reverseRecOn with
  | nil => simp [runModified]
  | append_singleton l e ih =>
      unfold runModified at ih ⊢
      rw [foldl_stepModified_append]
      constructor
      · intro h
        cases e with
        | key c =>
            refine ⟨⟨l.length, by simp⟩, ?_, ?_⟩
            · simp [touches]
            · intro j hj
              have : (j : Nat) < l.length + 1 := by
                simpa using j.isLt
              have : (j : Nat) < l.length + 1 ∧ l.length < (j : Nat) := ⟨this, hj⟩
              omega
        | paste =>
            refine ⟨⟨l.length, by simp⟩, ?_, ?_⟩
            · simp [touches]
            · intro j hj
              have h1 : (j : Nat) < l.length + 1 := by simpa using j.isLt
              have h2 : l.length < (j : Nat) := hj
              omega
        | newDone => simp [stepModified] at h
        | openOk => simp [stepModified] at h
        | saveOk => simp [stepModified] at h
        | saveFail =>
            have h' := ih.mp h
            obtain ⟨i, hi, hafter⟩ := h'
            refine ⟨⟨i, by simp; omega⟩, ?_, ?_⟩
            · rw [List.get_append_left]
              exact hi
            · intro j hj
              by_cases hjl : (j : Nat) < l.length
              · have := hafter ⟨j, hjl⟩ hj
                rw [List.get_append_left]
                exact this
              · have hje : (j : Nat) = l.length := by
                  have := j.isLt; simp at this; omega
                rw [ev_get_append_last l Ev.saveFail j hje]
                rfl
      · rintro ⟨i, hi, hafter⟩
        by_cases hil : (i : Nat) < l.length
        · -- the touching event is inside l; e must not be a reset
          have hre : resets e = false := by
            have := hafter ⟨l.length, by simp⟩ (by simpa using hil)
            rwa [ev_get_append_last l e ⟨l.length, by simp⟩ rfl] at this
          have hrun : List.foldl stepModified false l = true := by
            apply ih.mpr
            refine ⟨⟨i, hil⟩, ?_, ?_⟩
            · have := hi
              rwa [List.get_append_left] at this
            · intro j hj
              have := hafter ⟨j, by simp; omega⟩ (by simpa using hj)
              rwa [List.get_append_left] at this
          rw [hrun]
          cases e with
          | key c => rfl
          | paste => rfl
          | newDone => simp [resets] at hre
          | openOk => simp [resets] at hre
          | saveOk => simp [resets] at hre
          | saveFail => rfl
        · -- the touching event is e itself
          have hie : (i : Nat) = l.length := by
            have := i.isLt; simp at this; omega
          rw [ev_get_append_last l e i hie] at hi
          cases e with
          | key c => rfl
          | paste => rfl
          | newDone => simp [touches] at hi
          | openOk => simp [touches] at hi
          | saveOk => simp [touches] at hi
          | saveFail => simp [touches] at hi

/-- C3 counterexample: with buffer content "hi", Save writes "hi\n"
(tk.Text's END read appends the automatic trailing newline) and the
following Open loads "hi\n", which differs from "hi" — the round trip is
not byte-for-byte. -/
theorem save_then_open_not_identity :
    save_then_open_content ⟨"hi", some "p", false⟩ = "hi\n" ∧ "hi\n" ≠ "hi" := by
  constructor
  · rfl
  · decide

/-- C3 amended: for every buffer content C, Save to a path followed by
Open of that path yields buffer content C ++ "\n" — the original content
plus one newline, because save_file writes the widget's automatic
trailing newline along with the content. -/
theorem save_then_open_appends_newline (C : String) (p : Option String)
    (m : Bool) : save_then_open_content ⟨C, p, m⟩ = C ++ "\n" := rfl

/-- C4: when Open's read fails, or Save's or Save-As's write fails, the
error message is surfaced and the editor state — buffer content, path and
modified flag — is returned unchanged. -/
theorem io_failure_preserves_state (s : EditorSt) (f e : String) :
    open_file s f (.err e) = (s, some e)
    ∧ save_file_with_path s (.err e) = (s, none, some e)
    ∧ save_as_file s f (.err e) = (s, none, some e) :=
  ⟨rfl, rfl, rfl⟩

/-- C1 (code bug): whatever recursion budget the interpreter allows,
clicking either button of the unsaved-changes dialog never completes
normally and never invokes the originally requested action: the inner
def on_discard shadows the callback parameter of the same name, so both
handlers end in unbounded self-recursion (RecursionError) with the
requested action still pending. -/
theorem unsaved_dialog_never_proceeds (fuel : Nat) (st : DialogRun) :
    ((onDiscardHandler fuel st).2 = false
      ∧ (onDiscardHandler fuel st).1.proceedInvoked = st.proceedInvoked)
    ∧ ((onSaveHandler fuel st).2 = false
      ∧ (onSaveHandler fuel st).1.proceedInvoked = st.proceedInvoked) := by
  have key : ∀ (n : Nat) (s : DialogRun),
      (onDiscardHandler n s).2 = false
        ∧ (onDiscardHandler n s).1.proceedInvoked = s.proceedInvoked := by
    intro n
    induction n with
    | zero => intro s; exact ⟨rfl, rfl⟩
    | succ k ih =>
        intro s
        have := ih { s with dialogDestroyed := true }
        exact ⟨this.1, this.2⟩
  exact ⟨key fuel st, key fuel { st with dialogDestroyed := true, saveInvoked := true }⟩

/-- C2 counterexample: the claim requires every destructive action on a
Dirty buffer to run the unsaved-changes flow, but Open on a Dirty buffer
proceeds directly — runsUnsavedFlow .openFile true = false — so the
universal claim is false (and likewise for a close request). -/
theorem not_all_destructive_actions_check_dirty :
    ¬ (∀ a : DestructiveAction, runsUnsavedFlow a true = true) := by
  intro h
  exact absurd (h .openFile) (by decide)

/-- C2 amended: only File→New consults the dirty flag — it runs the
unsaved-changes flow exactly when the buffer is Dirty — while Open and a
window-close request never run the flow, discarding even a Dirty buffer
directly; a Clean buffer always proceeds directly. -/
theorem only_new_checks_dirty (m : Bool) :
    runsUnsavedFlow .newFile m = m
    ∧ runsUnsavedFlow .openFile m = false
    ∧ runsUnsavedFlow .closeRequest m = false
    ∧ (∀ a : DestructiveAction, runsUnsavedFlow a false = false) :=
  ⟨rfl, rfl, rfl, fun a => by cases a <;> rfl⟩

theorem on_close_editors (w : Ed) (s : App) :
    (on_close w s).editors = s.editors.erase w := by
  unfold on_close
  by_cases h : w.isRoot <;> simp [h]

theorem on_close_good {s : App} {w : Ed} {rest : List Ed}
    (hg : GoodApp s (w :: rest)) : GoodApp (on_close w s) rest := by
  obtain ⟨hperm, hids, hterm, hdisj⟩ := hg
  have hw : w ∈ s.editors := hperm.symm.subset (List.mem_cons_self w rest)
  have hne : s.editors ≠ [] := by
    intro h; rw [h] at hw; simp at hw
  have ht : s.terminated = false := by
    cases h : s.terminated
    · rfl
    · exact absurd (hterm.mp h) hne
  have hperm' : (s.editors.erase w).Perm rest := by
    have := hperm.erase w
    rwa [List.erase_cons_head] at this
  have hsub : List.Sublist (s.editors.erase w) s.editors :=
    List.erase_sublist w s.editors
  have hids' : ((s.editors.erase w).map Ed.id).Nodup :=
    (hsub.map Ed.id).nodup hids
  have hnd : s.editors.Nodup := List.Nodup.of_map Ed.id hids
  refine ⟨?_, ?_, ?_, ?_⟩ <;> unfold on_close <;> by_cases h : w.isRoot <;>
    simp only [h, if_true, if_false, ite_true, ite_false]
  · exact hperm'
  · exact hperm'
  · exact hids'
  · exact hids'
  · rw [ht]
    simp [List.isEmpty_iff]
  · rw [ht]
    simp [List.isEmpty_iff]
  · -- root close: destroyedIds unchanged
    intro e he
    exact hdisj e (hsub.subset he)
  · -- non-root close: w.id is added to destroyedIds
    intro e he
    intro hc0
    have hc : e.id = w.id ∨ e.id ∈ s.destroyedIds := by
      simpa using hc0
    rcases hc with hc | hc
    · have hew : e ≠ w := by
        intro hew
        subst hew
        exact (hnd.not_mem_erase) he
      have : e = w :=
        List.inj_on_of_nodup_map hids (hsub.subset he) hw hc
      exact hew this
    · exact hdisj e (hsub.subset he) hc

theorem closeSeq_append (s : App) (l1 l2 : List Ed) :
    closeSeq s (l1 ++ l2) = closeSeq (closeSeq s l1) l2 := by
  unfold closeSeq
  rw [List.foldl_append]

theorem closeSeq_good (order : List Ed) : ∀ s : App, GoodApp s order →
    ∀ k : Nat, GoodApp (closeSeq s (order.take k)) (order.drop k) := by
  induction order with
  | nil =>
      intro s hg k
      simp [closeSeq, hg]
  | cons w rest ih =>
      intro s hg k
      cases k with
      | zero => simpa [closeSeq] using hg
      | succ k =>
          have : closeSeq s ((w :: rest).take (k + 1)) =
              closeSeq (on_close w s) (rest.take k) := by
            simp [closeSeq, List.take_succ_cons]
          rw [this, List.drop_succ_cons]
          exact ih (on_close w s) (on_close_good hg) k

/-- Closing the root window, from a state where it is registered and no
registered window has been destroyed: it is withdrawn, and it is not
destroyed (not at this close — the root branch of on_close never touches
the destroyed set — and not before, because it was still registered). -/
theorem on_close_root_withdrawn {s : App} {w : Ed} (hroot : w.isRoot = true)
    (hw : w ∈ s.editors) (hdisj : ∀ e ∈ s.editors, e.id ∉ s.destroyedIds) :
    w.id ∈ (on_close w s).withdrawnIds
    ∧ w.id ∉ (on_close w s).destroyedIds := by
  unfold on_close
  simp only [hroot, if_true, ite_true]
  exact ⟨List.mem_cons_self w.id s.withdrawnIds, hdisj w hw⟩

/-- C9: starting from any non-empty registry of windows with distinct
identities, closing them in any order quits the process exactly at the
step where the registry becomes empty (after every prefix of the close
order, quit has been called iff the registry is empty), and a root
window closed while sibling windows remain is withdrawn (hidden) and not
destroyed. -/
theorem window_close_termination (ws order : List Ed)
    (hperm : order.Perm ws) (hids : (ws.map Ed.id).Nodup) (hne : ws ≠ []) :
    (∀ k : Nat,
       ((closeSeq (initApp ws) (order.take k)).terminated = true
         ↔ (closeSeq (initApp ws) (order.take k)).editors = []))
    ∧ (∀ (k : Nat) (w : Ed), order[k]? = some w → w.isRoot = true →
        (closeSeq (initApp ws) (order.take (k + 1))).editors ≠ [] →
        w.id ∈ (closeSeq (initApp ws) (order.take (k + 1))).withdrawnIds
        ∧ w.id ∉ (closeSeq (initApp ws) (order.take (k + 1))).destroyedIds) := by
  have hg0 : GoodApp (initApp ws) order := by
    refine ⟨hperm.symm, hids, ?_, ?_⟩
    · constructor
      · intro h; simp [initApp] at h
      · intro h; exact absurd h hne
    · intro e _; simp [initApp]
  have hgk := closeSeq_good order (initApp ws) hg0
  constructor
  · intro k
    exact (hgk k).2.2.1
  · intro k w hk hroot _
    have hklen : k < order.length := by
      by_contra hge
      rw [List.getElem?_eq_none (Nat.le_of_not_lt hge)] at hk
      exact Option.noConfusion hk
    have hkw : order[k] = w := by
      have h1 : order[k]? = some order[k] := List.getElem?_eq_getElem hklen
      rw [h1] at hk
      exact Option.some.inj hk
    have htake : order.take (k + 1) = order.take k ++ [w] := by
      rw [List.take_succ, hk]
      rfl
    have hsplit : closeSeq (initApp ws) (order.take (k + 1)) =
        on_close w (closeSeq (initApp ws) (order.take k)) := by
      rw [htake, closeSeq_append]
      rfl
    have hdrop : order.drop k = w :: order.drop (k + 1) := by
      rw [← hkw]
      exact List.drop_eq_getElem_cons hklen
    have hgood := hgk k
    rw [hdrop] at hgood
    obtain ⟨hpermk, _, _, hdisjk⟩ := hgood
    have hwmem : w ∈ (closeSeq (initApp ws) (order.take k)).editors :=
      hpermk.symm.subset (List.mem_cons_self w (order.drop (k + 1)))
    rw [hsplit]
    exact on_close_root_withdrawn hroot hwmem hdisjk

/-- C9 witness: two windows (a root and a sibling) closed root-first —
after closing the root alone the process has not quit and the root is
withdrawn, not destroyed; after closing both the process has quit. -/
theorem window_close_termination_witness :
    ([wRoot, wSib] : List Ed).Perm [wRoot, wSib]
    ∧ ([wRoot, wSib].map Ed.id).Nodup
    ∧ ([wRoot, wSib] : List Ed) ≠ []
    ∧ ((closeSeq (initApp [wRoot, wSib]) ([wRoot, wSib].take 2)).terminated = true
        ↔ (closeSeq (initApp [wRoot, wSib]) ([wRoot, wSib].take 2)).editors = [])
    ∧ (wRoot.id ∈ (closeSeq (initApp [wRoot, wSib])
          ([wRoot, wSib].take 1)).withdrawnIds
        ∧ wRoot.id ∉ (closeSeq (initApp [wRoot, wSib])
          ([wRoot, wSib].take 1)).destroyedIds) :=
  ⟨List.Perm.refl _, by decide, by decide,
   (window_close_termination [wRoot, wSib] [wRoot, wSib] (List.Perm.refl _)
      (by decide) (by decide)).1 2,
   (window_close_termination [wRoot, wSib] [wRoot, wSib] (List.Perm.refl _)
      (by decide) (by decide)).2 0 wRoot rfl rfl (by decide)⟩

/-- C10: closing the root window removes it from the registry even when
sibling windows remain and the root object survives hidden; a theme or
font-size broadcast issued afterwards restyles exactly the windows still
registered and leaves the hidden root object (its theme and font fields)
untouched. -/
theorem root_close_excluded_from_broadcast (s : App) (r : Ed)
    (hroot : r.isRoot = true) (hmem : r ∈ s.editors) (hnd : s.editors.Nodup)
    (name : String) (size : Nat) :
    r ∉ (on_close r s).editors
    ∧ (on_close r s).hiddenRoot = some r
    ∧ (broadcast_theme name (on_close r s)).hiddenRoot = some r
    ∧ (∀ e ∈ (broadcast_theme name (on_close r s)).editors, e.theme = name)
    ∧ (broadcast_font_size size (on_close r s)).hiddenRoot = some r
    ∧ (∀ e ∈ (broadcast_font_size size (on_close r s)).editors,
        e.fontSize = size) := by
  refine ⟨?_, ?_, ?_, ?_, ?_, ?_⟩
  · rw [on_close_editors]
    exact hnd.not_mem_erase
  · simp [on_close, hroot]
  · simp [broadcast_theme, on_close, hroot]
  · intro e he
    simp only [broadcast_theme, List.mem_map] at he
    obtain ⟨x, _, hx⟩ := he
    rw [← hx]
  · simp [broadcast_font_size, on_close, hroot]
  · intro e he
    simp only [broadcast_font_size, List.mem_map] at he
    obtain ⟨x, _, hx⟩ := he
    rw [← hx]

/-- C10 witness: with the root and one sibling open, closing the root and
broadcasting Dark at size 18 restyles only the sibling; the hidden root
object keeps its old styling. -/
theorem root_close_excluded_from_broadcast_witness :
    wRoot.isRoot = true ∧ wRoot ∈ (initApp [wRoot, wSib]).editors
    ∧ (initApp [wRoot, wSib]).editors.Nodup
    ∧ (wRoot ∉ (on_close wRoot (initApp [wRoot, wSib])).editors
       ∧ (on_close wRoot (initApp [wRoot, wSib])).hiddenRoot = some wRoot
       ∧ (broadcast_theme "Dark"
            (on_close wRoot (initApp [wRoot, wSib]))).hiddenRoot = some wRoot
       ∧ (∀ e ∈ (broadcast_theme "Dark"
            (on_close wRoot (initApp [wRoot, wSib]))).editors, e.theme = "Dark")
       ∧ (broadcast_font_size 18
            (on_close wRoot (initApp [wRoot, wSib]))).hiddenRoot = some wRoot
       ∧ (∀ e ∈ (broadcast_font_size 18
            (on_close wRoot (initApp [wRoot, wSib]))).editors,
            e.fontSize = 18)) :=
  ⟨rfl, by decide, by decide,
   root_close_excluded_from_broadcast (initApp [wRoot, wSib]) wRoot rfl
     (by decide) (by decide) "Dark" 18⟩
